import Mathlib

/-!
Shallow embedding of the volleyball-ranking-system server
(`server/server.js`, plus the earlier revision of the comments/vote API)
and of the frontend rating-order shuffle (`App.tsx`).

Tables are modelled as lists of rows; each Express route handler becomes a
pure function from a database state and the request payload to
`Except ApiError DB` (an error response leaves the state unchanged, so the
error case carries no state).  SQL `LOWER`/`TRIM` and JS `toLowerCase`
are modelled for the ASCII alphabet, which covers every name the
application manipulates.  JS numbers that reach score validation are
modelled as rationals (a non-finite JS number is rejected by the same
`Number.isFinite` guard that rejects out-of-range scores and is not
representable here).
-/

namespace VB

/-- ASCII lower-casing, modelling JS `toLowerCase()` / SQL `LOWER`. -/
def lowerStr (s : String) : String := ⟨s.data.map Char.toLower⟩

/-- Case-insensitive equality, as in `LOWER(name) = LOWER($1)`. -/
def lowerEq (a b : String) : Bool := lowerStr a == lowerStr b

/-- SQL `TRIM`: strip leading and trailing spaces. -/
def sqlTrim (s : String) : String :=
  ⟨((s.data.dropWhile (· == ' ')).reverse.dropWhile (· == ' ')).reverse⟩

/-- Equality modulo `LOWER(TRIM(...))`, as in the player-targeting routes. -/
def trimLowerEq (a b : String) : Bool := lowerStr (sqlTrim a) == lowerStr (sqlTrim b)

/-- Row of the `players` table. -/
structure Player where
  name : String
  password : String
  can_rate : Bool
deriving DecidableEq

/-- Row of the `matches` table. -/
structure MatchRow where
  id : Nat
  locked : Bool
deriving DecidableEq

/-- Row of the `ratings` table (`score INTEGER CHECK (score BETWEEN 1 AND 10)`). -/
structure Rating where
  match_id : Nat
  rater : String
  ratee : String
  score : Int
  ts : Nat
deriving DecidableEq

/-- Row of the `comments` table of `server/server.js`. -/
structure CommentRow where
  id : Nat
  match_id : Nat
  author : String
  body : String
  ts : Nat
deriving DecidableEq

/-- Row of the `comment_votes` table of `server/server.js`
(`value SMALLINT CHECK (value IN (-1, 1))`, `PRIMARY KEY (comment_id, voter)`). -/
structure CommentVote where
  comment_id : Nat
  voter : String
  value : Int
  ts : Nat
deriving DecidableEq

/-- The relational state of `server/server.js`. -/
structure DB where
  players : List Player
  matches_ : List MatchRow  -- the `matches` table (field renamed: `matches` is reserved in Lean)
  ratings : List Rating
  comments : List CommentRow
  comment_votes : List CommentVote
deriving DecidableEq

/-- Error codes returned by the routes. -/
inductive ApiError where
  | invalid_credentials
  | no_permission_to_rate
  | ratings_locked
  | already_submitted
  | entries_required
  | invalid_ratee
  | invalid_score
  | db_error
  | admin_only
  | name_and_password_required
  | player_exists
  | name_required
  | not_found
  | invalid_payload
  | invalid_comment_id
  | invalid_value
  | comment_not_found
  | invalid_vote_type
  | empty_body
deriving DecidableEq

deriving instance DecidableEq for Except

/-- `checkCreds`: both fields truthy and a row matches
`LOWER(name) = LOWER($1) AND password = $2`. -/
def checkCredsL (players : List Player) (name password : String) : Bool :=
  !(name == "") && !(password == "") &&
    players.any (fun p => lowerEq p.name name && p.password == password)

def checkCreds (db : DB) (name password : String) : Bool :=
  checkCredsL db.players name password

/-- `canonicalName`: canonical casing of a player name (`LIMIT 1`: first match),
falling back to the request's spelling. -/
def canonicalNameL (players : List Player) (name : String) : String :=
  match players.find? (fun p => lowerEq p.name name) with
  | some p => p.name
  | none => name

def canonicalName (db : DB) (name : String) : String :=
  canonicalNameL db.players name

/-- `getEligibleRaters`: names of players with `can_rate = TRUE`.
The SQL `ORDER BY LOWER(name)` only affects presentation order and is
not modelled; the callers use the result as a set and as a count. -/
def getEligibleRaters (db : DB) : List String :=
  (db.players.filter (·.can_rate)).map (·.name)

/-- `getCurrentMatch`: `ORDER BY id DESC LIMIT 1`, i.e. the row with the
largest id (`none` on an empty table, where the JS code would throw). -/
def getCurrentMatch (db : DB) : Option MatchRow :=
  db.matches_.foldl
    (fun acc m =>
      match acc with
      | none => some m
      | some b => if b.id < m.id then some m else some b)
    none

/-- `getTotalsForMatch`: `(total, raters)` = (number of eligible players,
`COUNT(DISTINCT rater)` over the match's ratings). -/
def getTotalsForMatch (db : DB) (matchId : Nat) : Nat × Nat :=
  ((getEligibleRaters db).length,
   (((db.ratings.filter (fun r => r.match_id == matchId)).map (·.rater)).dedup).length)

/-- One entry of a `POST /submit` payload; the JS score is a number. -/
structure Entry where
  ratee : String
  score : Rat
deriving DecidableEq

/-- JS `Math.round` (round half toward positive infinity). -/
def jsRound (q : Rat) : Int := ⌊q + 1/2⌋

/-- The per-entry validation of `POST /submit`: ratee must be an eligible
player (exact string membership) and differ from the rater
case-insensitively; the score must lie within 1..10. -/
def entryCheck (eligible : List String) (raterName : String) (e : Entry) : Option ApiError :=
  if !(eligible.contains e.ratee) || lowerEq e.ratee raterName then some .invalid_ratee
  else if e.score < 1 || e.score > 10 then some .invalid_score
  else none

/-- The `for (const e of entries)` loop: the error of the first failing entry. -/
def firstEntryError (eligible : List String) (raterName : String) :
    List Entry → Option ApiError
  | [] => none
  | e :: es =>
    match entryCheck eligible raterName e with
    | some err => some err
    | none => firstEntryError eligible raterName es

/-- The rows inserted by a successful `POST /submit`. -/
def insertedRows (matchId : Nat) (raterName : String) (entries : List Entry) (ts : Nat) :
    List Rating :=
  entries.map (fun e => ⟨matchId, raterName, e.ratee, jsRound e.score, ts⟩)

/-- `POST /submit` of `server/server.js`. -/
def submit (db : DB) (name password : String) (entries : List Entry) (ts : Nat) :
    Except ApiError DB :=
  if !(checkCreds db name password) then .error .invalid_credentials
  else if !((db.players.find? (fun p => lowerEq p.name name)).map (·.can_rate) == some true) then
    .error .no_permission_to_rate
  else
    match getCurrentMatch db with
    | none => .error .db_error
    | some m =>
      if m.locked then .error .ratings_locked
      else
        let raterName := canonicalName db name
        if db.ratings.any (fun r => r.match_id == m.id && r.rater == raterName) then
          .error .already_submitted
        else if entries.isEmpty then .error .entries_required
        else
          match firstEntryError (getEligibleRaters db) raterName entries with
          | some err => .error err
          | none =>
            .ok { db with ratings := db.ratings ++ insertedRows m.id raterName entries ts }

/-- `GET /leaderboard`'s readiness flag:
`ready = raters >= total && total > 0` for the current match. -/
def leaderboardReady (db : DB) : Option Bool :=
  (getCurrentMatch db).map (fun m =>
    let t := getTotalsForMatch db m.id
    decide (t.2 ≥ t.1 ∧ 0 < t.1))

/-- `POST /admin/players`: add a player (`can_rate` defaults to false);
a duplicate primary key (exact name) yields `player_exists`. -/
def addPlayer (db : DB) (adminName adminPassword nm pw : String) : Except ApiError DB :=
  if !(checkCreds db adminName adminPassword) then .error .admin_only
  else if nm == "" || pw == "" then .error .name_and_password_required
  else if db.players.any (fun p => p.name == nm) then .error .player_exists
  else .ok { db with players := db.players ++ [⟨nm, pw, false⟩] }

/-- `DELETE /admin/players`: remove a player (`LOWER(TRIM(...))` match);
the `ON DELETE CASCADE` foreign keys also drop the player's ratings,
comments, and votes (and votes on dropped comments). -/
def removePlayer (db : DB) (adminName adminPassword nm : String) : Except ApiError DB :=
  if !(checkCreds db adminName adminPassword) then .error .admin_only
  else if nm == "" then .error .name_required
  else if !(db.players.any (fun p => trimLowerEq p.name nm)) then .error .not_found
  else
    let remaining := db.players.filter (fun p => !(trimLowerEq p.name nm))
    let names := remaining.map (·.name)
    let comments' := db.comments.filter (fun c => names.contains c.author)
    let commentIds := comments'.map (·.id)
    .ok { players := remaining,
          matches_ := db.matches_,
          ratings := db.ratings.filter (fun r => names.contains r.rater && names.contains r.ratee),
          comments := comments',
          comment_votes := db.comment_votes.filter
            (fun v => names.contains v.voter && commentIds.contains v.comment_id) }

/-- `PATCH|POST /admin/players/permission` (`togglePlayerPermission`):
requires the hardcoded admin name `"bader"` (case-insensitively) on top of
credential verification.  The boolean coercion of string payloads is left
out: the `can_rate` argument is the already-coerced boolean, and a payload
that does not coerce is the `nm = ""` / `invalid_payload` case. -/
def togglePlayerPermission (db : DB) (adminName adminPassword nm : String) (can_rate : Bool) :
    Except ApiError DB :=
  if !(lowerEq adminName "bader" && checkCreds db adminName adminPassword) then
    .error .admin_only
  else if nm == "" then .error .invalid_payload
  else if !(db.players.any (fun p => trimLowerEq p.name nm)) then .error .not_found
  else
    .ok { db with
          players := db.players.map
            (fun p => if trimLowerEq p.name nm then { p with can_rate := can_rate } else p) }

/-- `POST /admin/lock`: set the current match's lock flag and bulk-set
every player's `can_rate` to the negation of `locked`. -/
def adminLock (db : DB) (name password : String) (locked : Bool) : Except ApiError DB :=
  if !(checkCreds db name password) then .error .admin_only
  else
    match getCurrentMatch db with
    | none => .error .db_error
    | some m =>
      .ok { db with
            matches_ := db.matches_.map
              (fun x => if x.id == m.id then { x with locked := locked } else x),
            players := db.players.map (fun p => { p with can_rate := !locked }) }

/-- The next `BIGSERIAL` value of the `matches` table, modelled as one past
the largest existing id. -/
def nextMatchId (db : DB) : Nat :=
  (db.matches_.foldl (fun acc m => max acc m.id) 0) + 1

/-- `POST /reset`: lock the current match and append a fresh locked match. -/
def reset (db : DB) (name password : String) : Except ApiError DB :=
  if !(checkCreds db name password) then .error .admin_only
  else
    match getCurrentMatch db with
    | none => .error .db_error
    | some m =>
      .ok { db with
            matches_ := (db.matches_.map
              (fun x => if x.id == m.id then { x with locked := true } else x))
              ++ [⟨nextMatchId db, true⟩] }

/-- `POST /comments/:id/vote` of `server/server.js`: value 0 deletes the
voter's vote; value 1 or -1 upserts it (`ON CONFLICT (comment_id, voter)
DO UPDATE`); anything else is `invalid_value`.  Inserting a vote for a
nonexistent comment violates the foreign key, which the handler surfaces
as `db_error`. -/
def voteHandler (db : DB) (name password : String) (commentId : Nat) (value : Int) (ts : Nat) :
    Except ApiError DB :=
  if !(checkCreds db name password) then .error .invalid_credentials
  else
    let voter := canonicalName db name
    if value == 0 then
      .ok { db with
            comment_votes := db.comment_votes.filter
              (fun v => !(v.comment_id == commentId && v.voter == voter)) }
    else if value == 1 || value == -1 then
      if !(db.comments.any (fun c => c.id == commentId)) then .error .db_error
      else if db.comment_votes.any (fun v => v.comment_id == commentId && v.voter == voter) then
        .ok { db with
              comment_votes := db.comment_votes.map
                (fun v => if v.comment_id == commentId && v.voter == voter then
                    { v with value := value, ts := ts } else v) }
      else
        .ok { db with comment_votes := db.comment_votes ++ [⟨commentId, voter, value, ts⟩] }
    else .error .invalid_value

/-- The stored votes of one voter on one comment (`server/server.js`). -/
def votesOf (db : DB) (voter : String) (cid : Nat) : List CommentVote :=
  db.comment_votes.filter (fun v => v.comment_id == cid && v.voter == voter)

/-- The per-player scores that `GET /leaderboard/overall` aggregates:
ratings addressed to the player whose `match_id` belongs to a locked match. -/
def lockedMatchIds (db : DB) : List Nat :=
  (db.matches_.filter (·.locked)).map (·.id)

def overallScores (db : DB) (p : String) : List Int :=
  (db.ratings.filter
    (fun r => r.ratee == p && (lockedMatchIds db).contains r.match_id)).map (·.score)

/-- The `COALESCE(AVG(r.score), 0)` and `COUNT(r.score)` columns of
`GET /leaderboard/overall` for one player. -/
def overallRow (db : DB) (p : String) : Rat × Nat :=
  let scores := overallScores db p
  (if scores.length == 0 then 0 else (scores.sum : Rat) / (scores.length : Rat),
   scores.length)

/-- Arithmetic mean as worded by the spec: the mean of a list of scores,
0 when the list is empty. -/
def specMean (l : List Int) : Rat :=
  if l.length = 0 then 0 else (l.sum : Rat) / (l.length : Rat)

/-- A small concrete state used to instantiate the theorems: two players
with rating permission and one unlocked match. -/
def wdb : DB :=
  { players := [⟨"Ana", "pa", true⟩, ⟨"Bob", "pb", true⟩],
    matches_ := [⟨1, false⟩],
    ratings := [], comments := [], comment_votes := [] }

/-- The same state with the match locked. -/
def wdbL : DB := { wdb with matches_ := [⟨1, true⟩] }

/-- Extract the success state of a route call, keeping a fallback state on
error (used to chain concrete requests in counterexamples). -/
def okOr (r : Except ApiError DB) (d : DB) : DB :=
  match r with
  | .ok x => x
  | .error _ => d

/-- Whether a route call succeeded. -/
def isOkB (r : Except ApiError DB) : Bool :=
  match r with
  | .ok _ => true
  | .error _ => false

/-- Two players, neither eligible yet, one locked match. -/
def c2db0 : DB :=
  { players := [⟨"Bader", "pw", false⟩, ⟨"Marc", "mp", false⟩],
    matches_ := [⟨1, true⟩], ratings := [], comments := [], comment_votes := [] }

/-- After the admin unlocks (everyone becomes eligible). -/
def c2db1 : DB := okOr (adminLock c2db0 "Bader" "pw" false) c2db0

/-- After Bader submits. -/
def c2db2 : DB := okOr (submit c2db1 "Bader" "pw" [⟨"Marc", (7 : Rat)⟩] 10) c2db1

/-- After Marc submits. -/
def c2db3 : DB := okOr (submit c2db2 "Marc" "mp" [⟨"Bader", (6 : Rat)⟩] 11) c2db2

/-- After the admin revokes Marc's `can_rate`. -/
def c2db4 : DB := okOr (togglePlayerPermission c2db3 "Bader" "pw" "Marc" false) c2db3

/-- Two players with permission, admin `Bader` present, one unlocked match. -/
def c5db : DB :=
  { players := [⟨"Bader", "bp", true⟩, ⟨"Marc", "mp", true⟩],
    matches_ := [⟨1, false⟩], ratings := [], comments := [], comment_votes := [] }

/-- The intended shape of the `comment_votes` table of `server/server.js`:
the primary key `(comment_id, voter)` makes rows pairwise distinct on that
pair, and the `CHECK` constraint keeps every value in -1, 1. -/
def VotesInv (votes : List CommentVote) : Prop :=
  votes.Pairwise (fun a b => ¬(a.comment_id = b.comment_id ∧ a.voter = b.voter)) ∧
  ∀ v ∈ votes, v.value = 1 ∨ v.value = -1

end VB

namespace P1

/-- Row of the `comments` table in the earlier revision (denormalized
`likes`/`dislikes` counters, kept non-negative by the SQL `GREATEST` clamps,
hence `Nat`). -/
structure CommentRow where
  id : Nat
  author : String
  body : String
  likes : Nat
  dislikes : Nat
deriving DecidableEq

/-- Row of the `comment_voters` table (`UNIQUE (voter, comment_id)`,
`vote_type IN ('like','dislike')`). -/
structure VoterRow where
  id : Nat
  voter : String
  vote_type : String
  comment_id : Nat
deriving DecidableEq

/-- The slice of the earlier revision's state that the vote route touches,
plus the `BIGSERIAL` counter for `comment_voters.id`. -/
structure DB where
  players : List VB.Player
  comments : List CommentRow
  comment_voters : List VoterRow
  nextVoterId : Nat
deriving DecidableEq

/-- `POST /comments/vote` of the earlier revision: a transactional
like/dislike/clear toggle that maintains the denormalized counters. -/
def vote (db : DB) (name password : String) (comment_id : Nat) (ty0 : String) :
    Except VB.ApiError DB :=
  if !(VB.checkCredsL db.players name password) then .error .invalid_credentials
  else
    let voter := VB.canonicalNameL db.players name
    let ty := VB.lowerStr ty0
    if !(ty == "like" || ty == "dislike" || ty == "clear") then .error .invalid_vote_type
    else if !(db.comments.any (fun c => c.id == comment_id)) then .error .comment_not_found
    else
      match db.comment_voters.find? (fun v => v.voter == voter && v.comment_id == comment_id) with
      | none =>
        if ty == "clear" then .ok db
        else
          .ok { db with
                comment_voters := db.comment_voters ++ [⟨db.nextVoterId, voter, ty, comment_id⟩],
                nextVoterId := db.nextVoterId + 1,
                comments := db.comments.map (fun c =>
                  if c.id == comment_id then
                    if ty == "like" then { c with likes := c.likes + 1 }
                    else { c with dislikes := c.dislikes + 1 }
                  else c) }
      | some prior =>
        -- sending the stored reaction again is treated as a clear
        let ty := if ty == prior.vote_type then "clear" else ty
        if ty == "clear" then
          .ok { db with
                comment_voters := db.comment_voters.filter (fun v => !(v.id == prior.id)),
                comments := db.comments.map (fun c =>
                  if c.id == comment_id then
                    if prior.vote_type == "like" then { c with likes := c.likes - 1 }
                    else { c with dislikes := c.dislikes - 1 }
                  else c) }
        else
          .ok { db with
                comment_voters := db.comment_voters.map
                  (fun v => if v.id == prior.id then { v with vote_type := ty } else v),
                comments := db.comments.map (fun c =>
                  if c.id == comment_id then
                    if ty == "like" then { c with likes := c.likes + 1, dislikes := c.dislikes - 1 }
                    else { c with dislikes := c.dislikes + 1, likes := c.likes - 1 }
                  else c) }

/-- The stored votes of one voter on one comment (earlier revision). -/
def votesOf (db : DB) (voter : String) (cid : Nat) : List VoterRow :=
  db.comment_voters.filter (fun v => v.voter == voter && v.comment_id == cid)

/-- The first `comments` row with the given id (the `WHERE id = $1` lookup). -/
def commentById (db : DB) (cid : Nat) : Option CommentRow :=
  db.comments.find? (fun c => c.id == cid)

/-- The `UNIQUE (voter, comment_id)` and `CHECK (vote_type IN ...)`
constraints of the `comment_voters` table. -/
def VotersInv (rows : List VoterRow) : Prop :=
  rows.Pairwise (fun a b => ¬(a.voter = b.voter ∧ a.comment_id = b.comment_id)) ∧
  ∀ v ∈ rows, v.vote_type = "like" ∨ v.vote_type = "dislike"

end P1

/-- A state of `server/server.js` with one comment (no votes yet). -/
def vdb : VB.DB := { VB.wdb with comments := [⟨1, 1, "Ana", "gg", 2⟩] }

/-- A state of the earlier revision with one comment and no votes. -/
def p1db : P1.DB :=
  { players := [⟨"Ana", "pa", true⟩, ⟨"Bob", "pb", true⟩],
    comments := [⟨1, "Ana", "gg", 0, 0⟩],
    comment_voters := [], nextVoterId := 1 }

/-- A state of `server/server.js` in which `Bob` already likes comment 1. -/
def c3db : VB.DB := { vdb with comment_votes := [⟨1, "Bob", 1, 3⟩] }

namespace FE

/-- JS `Math.imul` up to congruence modulo 2^32 (all consumers of the
result are bitwise operators or a final `>>> 0`, so only the residue
matters). -/
def imul32 (a b : Nat) : Nat := (a * b) % 4294967296

/-- `hashStr`: 32-bit FNV-1a over the string's code units. -/
def hashStr (s : String) : Nat :=
  s.data.foldl (fun h c => imul32 (h ^^^ c.toNat) 16777619) 2166136261

/-- One call of the `mulberry32` closure: `(output, next state)`, both
32-bit.  The JS `/ 4294967296` that scales the output into `[0, 1)` is
fused into `fyLoop`'s index computation. -/
def mulberry32Next (a : Nat) : Nat × Nat :=
  let a' := (a + 0x6D2B79F5) % 4294967296
  let t1 := imul32 (a' ^^^ (a' >>> 15)) (a' ||| 1)
  let t2 := t1 ^^^ ((t1 + imul32 (t1 ^^^ (t1 >>> 7)) (t1 ||| 61)) % 4294967296)
  (t2 ^^^ (t2 >>> 14), a')

/-- The JS destructuring swap `[order[i], order[j]] = [order[j], order[i]]`
(identity when an index is out of range, which the loop never produces). -/
def swapL (l : List α) (i j : Nat) : List α :=
  match l[i]?, l[j]? with
  | some a, some b => (l.set i b).set j a
  | _, _ => l

/-- The Fisher–Yates loop of `startRatingFlow`: the JS index `i` runs from
`order.length - 1` down to 1, and `j = Math.floor(rng() * (i + 1))`
(exact, since the scaled 32-bit output times a small factor is an exact
float). -/
def fyLoop (l : List String) (a : Nat) : Nat → List String
  | 0 => l
  | i+1 =>
    let step := mulberry32Next a
    let j := (step.1 * (i + 2)) / 4294967296
    fyLoop (swapL l (i+1) j) step.2 i

/-- `startRatingFlow`: the card order is the player list minus the current
user, shuffled with `mulberry32(hashStr(date ++ user))` where `date` is
the `YYYYMMDD` calendar date. -/
def startRatingFlow (players : List String) (currentUser : String) (dateStr : String) :
    List String :=
  let order := players.filter (fun p => p != currentUser)
  fyLoop order (hashStr (dateStr ++ currentUser)) (order.length - 1)

theorem count_set_add {α : Type} [DecidableEq α] (l : List α) (i : Nat) (b x : α)
    (h : i < l.length) :
    (l.set i b).count x + (if l[i] = x then 1 else 0)
      = l.count x + (if b = x then 1 else 0) := by
  induction l generalizing i with
  | nil => simp at h
  | cons c t ih =>
    cases i with
    | zero =>
      simp only [List.set_cons_zero, List.count_cons, List.getElem_cons_zero, beq_iff_eq]
      omega
    | succ n =>
      have h' : n < t.length := by simpa using h
      simp only [List.set_cons_succ, List.count_cons, List.getElem_cons_succ, beq_iff_eq]
      have := ih n h'
      omega

theorem swapL_perm {α : Type} [DecidableEq α] (l : List α) (i j : Nat) :
    (swapL l i j).Perm l := by
  unfold swapL
  split
  case _ a b heqi heqj =>
    obtain ⟨hi, heqi'⟩ := List.getElem?_eq_some.mp heqi
    obtain ⟨hj, heqj'⟩ := List.getElem?_eq_some.mp heqj
    rw [List.perm_iff_count]
    intro x
    have h1 := count_set_add l i b x hi
    have h2 := count_set_add (l.set i b) j a x (by simpa using hj)
    rw [List.getElem_set] at h2
    rw [heqi'] at h1
    have hb : (if i = j then b else l[j]) = b := by
      split
      · rfl
      · exact heqj'
    rw [hb] at h2
    omega
  case _ => exact List.Perm.refl l

theorem fyLoop_perm (i : Nat) : ∀ (l : List String) (a : Nat), (fyLoop l a i).Perm l := by
  induction i with
  | zero => intro l a; exact List.Perm.refl l
  | succ n ih =>
    intro l a
    exact (ih _ _).trans (swapL_perm _ _ _)

/-- C9: the rating wizard's card order is a permutation of the player list
minus the current user, computed by a Fisher–Yates shuffle whose random
stream is seeded only from the calendar date string and the user's name
(`hashStr (date ++ user)`); consequently two runs with the same date, the
same user, and the same player list produce the identical order. -/
theorem c9_deterministic_shuffle (players : List String) (u d : String) :
    (startRatingFlow players u d).Perm (players.filter (fun p => p != u)) ∧
    startRatingFlow players u d
      = fyLoop (players.filter (fun p => p != u)) (hashStr (d ++ u))
          ((players.filter (fun p => p != u)).length - 1) ∧
    (∀ players' u' d', players' = players → u' = u → d' = d →
      startRatingFlow players' u' d' = startRatingFlow players u d) := by
  refine ⟨fyLoop_perm _ _ _, rfl, ?_⟩
  intro players' u' d' hp hu hd
  rw [hp, hu, hd]

theorem c9_deterministic_shuffle_witness :
    (startRatingFlow ["Ana", "Bob", "Cleo"] "Ana" "20251011").Perm
        (["Ana", "Bob", "Cleo"].filter (fun p => p != "Ana")) ∧
    startRatingFlow ["Ana", "Bob", "Cleo"] "Ana" "20251011"
      = startRatingFlow ["Ana", "Bob", "Cleo"] "Ana" "20251011" :=
  ⟨(c9_deterministic_shuffle ["Ana", "Bob", "Cleo"] "Ana" "20251011").1,
   (c9_deterministic_shuffle ["Ana", "Bob", "Cleo"] "Ana" "20251011").2.2
     ["Ana", "Bob", "Cleo"] "Ana" "20251011" rfl rfl rfl⟩

end FE

namespace VB

theorem firstEntryError_none_iff (el : List String) (rn : String) (es : List Entry) :
    firstEntryError el rn es = none ↔ ∀ e ∈ es, entryCheck el rn e = none := by
  induction es with
  | nil => simp [firstEntryError]
  | cons e es ih =>
    cases hc : entryCheck el rn e with
    | some err => simp [firstEntryError, hc]
    | none => simp [firstEntryError, hc, ih]

theorem entryCheck_none_iff (el : List String) (rn : String) (e : Entry) :
    entryCheck el rn e = none ↔
      (e.ratee ∈ el ∧ lowerEq e.ratee rn = false ∧
       1 ≤ e.score ∧ e.score ≤ 10) := by
  constructor
  · intro h
    unfold entryCheck at h
    split at h
    · exact absurd h (by simp)
    · split at h
      · exact absurd h (by simp)
      · next hc1 hc2 =>
        simp only [Bool.or_eq_true, Bool.not_eq_true', not_or, Bool.not_eq_true,
          decide_eq_true_eq, not_lt] at hc1 hc2
        exact ⟨List.elem_iff.mp (Bool.of_not_eq_false hc1.1), hc1.2, hc2.1, hc2.2⟩
  · rintro ⟨h1, h2, h3, h4⟩
    unfold entryCheck
    have hc1 : ¬((!el.contains e.ratee || lowerEq e.ratee rn) = true) := by
      simp [h1, h2]
    have hc2 : ¬((e.score < 1 || e.score > 10) = true) := by
      simp only [Bool.or_eq_true, decide_eq_true_eq, not_or, not_lt]
      exact ⟨h3, h4⟩
    rw [if_neg hc1, if_neg hc2]

/-- Inversion for a successful `POST /submit`: all the guards passed and
the post-state appends exactly one row per entry. -/
theorem submit_ok_inv (db : DB) (name password : String) (entries : List Entry) (ts : Nat)
    (db' : DB) (h : submit db name password entries ts = .ok db') :
    ∃ m, checkCreds db name password = true ∧
      (db.players.find? (fun p => lowerEq p.name name)).map (·.can_rate) = some true ∧
      getCurrentMatch db = some m ∧ m.locked = false ∧
      db.ratings.any (fun r => r.match_id == m.id && r.rater == canonicalName db name) = false ∧
      entries ≠ [] ∧
      firstEntryError (getEligibleRaters db) (canonicalName db name) entries = none ∧
      db' = { db with ratings :=
                db.ratings ++ insertedRows m.id (canonicalName db name) entries ts } := by
  by_cases h1 : checkCreds db name password
  case neg => simp [submit, h1] at h
  case pos =>
  by_cases h2 : (db.players.find? (fun p => lowerEq p.name name)).map (·.can_rate) = some true
  case neg => simp [submit, h1, h2] at h
  case pos =>
  cases hm : getCurrentMatch db with
  | none => simp [submit, h1, h2, hm] at h
  | some m =>
  by_cases hl : m.locked
  case pos => simp [submit, h1, h2, hm, hl] at h
  case neg =>
  by_cases hdup : db.ratings.any (fun r => r.match_id == m.id && r.rater == canonicalName db name)
  case pos => simp [submit, h1, h2, hm, hl, hdup] at h
  case neg =>
  by_cases hne : entries.isEmpty
  case pos => simp [submit, h1, h2, hm, hl, hdup, hne] at h
  case neg =>
  cases hval : firstEntryError (getEligibleRaters db) (canonicalName db name) entries with
  | some err => simp [submit, h1, h2, hm, hl, hdup, hne, hval] at h
  | none =>
    refine ⟨m, h1, h2, rfl, by simpa using hl, by simpa using hdup,
      by simpa [List.isEmpty_iff] using hne, rfl, ?_⟩
    simp [submit, h1, h2, hm, hl, hdup, hne, hval] at h
    exact h.symm

theorem jsRound_bounds (q : Rat) (h1 : 1 ≤ q) (h2 : q ≤ 10) :
    1 ≤ jsRound q ∧ jsRound q ≤ 10 := by
  unfold jsRound
  constructor
  · rw [Int.le_floor]
    push_cast
    linarith
  · have h : ⌊q + 1/2⌋ < 11 := by
      rw [Int.floor_lt]
      push_cast
      linarith
    omega

theorem lowerEq_refl (a : String) : lowerEq a a = true := by
  simp [lowerEq]

theorem ne_of_lowerEq_false {a b : String} (h : lowerEq a b = false) : a ≠ b := by
  intro heq
  rw [heq, lowerEq_refl] at h
  cases h

theorem firstEntryError_invalid_score (el : List String) (rn : String) (es : List Entry)
    (hratee : ∀ e ∈ es, e.ratee ∈ el ∧ lowerEq e.ratee rn = false)
    (hbad : ∃ e ∈ es, e.score < 1 ∨ 10 < e.score) :
    firstEntryError el rn es = some .invalid_score := by
  induction es with
  | nil => simp at hbad
  | cons e es ih =>
    have hre := hratee e (by simp)
    have hc1 : ¬((!el.contains e.ratee || lowerEq e.ratee rn) = true) := by
      simp [hre.2, hre.1]
    by_cases hs : e.score < 1 ∨ 10 < e.score
    · have hce : entryCheck el rn e = some .invalid_score := by
        unfold entryCheck
        rw [if_neg hc1, if_pos (by simpa using hs)]
      simp [firstEntryError, hce]
    · have hce : entryCheck el rn e = none := by
        unfold entryCheck
        rw [if_neg hc1, if_neg (by simpa using hs)]
      simp only [firstEntryError, hce]
      refine ih (fun x hx => hratee x (by simp [hx])) ?_
      obtain ⟨x, hx, hbx⟩ := hbad
      rcases List.mem_cons.mp hx with rfl | hx'
      · exact absurd hbx hs
      · exact ⟨x, hx', hbx⟩

theorem firstEntryError_invalid_ratee (el : List String) (rn : String) (es : List Entry)
    (hscore : ∀ e ∈ es, 1 ≤ e.score ∧ e.score ≤ 10)
    (hbad : ∃ e ∈ es, e.ratee ∉ el ∨ lowerEq e.ratee rn = true) :
    firstEntryError el rn es = some .invalid_ratee := by
  induction es with
  | nil => simp at hbad
  | cons e es ih =>
    by_cases hr : e.ratee ∉ el ∨ lowerEq e.ratee rn = true
    · have hce : entryCheck el rn e = some .invalid_ratee := by
        unfold entryCheck
        rw [if_pos]
        simp only [Bool.or_eq_true, Bool.not_eq_true']
        rcases hr with hr | hr
        · exact Or.inl (by simpa [List.elem_iff] using hr)
        · exact Or.inr hr
      simp [firstEntryError, hce]
    · push_neg at hr
      have hsc := hscore e (by simp)
      have hce : entryCheck el rn e = none := by
        rw [entryCheck_none_iff]
        exact ⟨hr.1, by simpa using hr.2, hsc.1, hsc.2⟩
      simp only [firstEntryError, hce]
      refine ih (fun x hx => hscore x (by simp [hx])) ?_
      obtain ⟨x, hx, hbx⟩ := hbad
      rcases List.mem_cons.mp hx with rfl | hx'
      · exact absurd hbx (by push_neg; exact ⟨hr.1, by simpa using hr.2⟩)
      · exact ⟨x, hx', hbx⟩

/-- C1: submission is one-shot per round.  With valid credentials, rating
permission, and the current match unlocked: a rater who already has a
stored rating row for the current match gets `already_submitted` (and the
error response inserts nothing), while a first valid submission succeeds
and stores exactly one row per entry. -/
theorem c1_submit_once_per_round (db : DB) (name password : String) (entries : List Entry)
    (ts : Nat) (m : MatchRow)
    (hm : getCurrentMatch db = some m)
    (hcred : checkCreds db name password = true)
    (hperm : (db.players.find? (fun p => lowerEq p.name name)).map (·.can_rate) = some true)
    (hunlocked : m.locked = false) :
    (db.ratings.any (fun r => r.match_id == m.id && r.rater == canonicalName db name) = true →
      submit db name password entries ts = .error .already_submitted) ∧
    (db.ratings.any (fun r => r.match_id == m.id && r.rater == canonicalName db name) = false →
     entries ≠ [] →
     firstEntryError (getEligibleRaters db) (canonicalName db name) entries = none →
      submit db name password entries ts
          = .ok { db with ratings :=
                    db.ratings ++ insertedRows m.id (canonicalName db name) entries ts } ∧
      (db.ratings ++ insertedRows m.id (canonicalName db name) entries ts).length
          = db.ratings.length + entries.length) := by
  constructor
  · intro hdup
    simp [submit, hcred, hperm, hm, hunlocked, hdup]
  · intro hdup hne hval
    refine ⟨?_, by simp [insertedRows]⟩
    simp [submit, hcred, hperm, hm, hunlocked, hdup, hval, List.isEmpty_iff, hne]

theorem c1_submit_once_per_round_witness :
    submit wdb "Ana" "pa" [⟨"Bob", (7 : Rat)⟩] 5
        = .ok { wdb with ratings :=
                  wdb.ratings ++ insertedRows 1 (canonicalName wdb "Ana") [⟨"Bob", (7 : Rat)⟩] 5 } ∧
    (wdb.ratings ++ insertedRows 1 (canonicalName wdb "Ana") [⟨"Bob", (7 : Rat)⟩] 5).length
        = wdb.ratings.length + 1 :=
  (c1_submit_once_per_round wdb "Ana" "pa" [⟨"Bob", (7 : Rat)⟩] 5 ⟨1, false⟩
      (by decide) (by decide) (by decide) rfl).2 (by decide) (by decide) (by decide)

/-- C6 counterexample: with the current match locked, a request with wrong
credentials fails with `invalid_credentials`, not `ratings_locked` — so
"every POST /submit request fails with error ratings_locked regardless of
the requester's credentials" does not hold as stated. -/
theorem c6_counterexample :
    getCurrentMatch wdbL = some ⟨1, true⟩ ∧
    submit wdbL "Ana" "wrong" [⟨"Bob", (7 : Rat)⟩] 5 = .error .invalid_credentials ∧
    ApiError.invalid_credentials ≠ ApiError.ratings_locked := by
  refine ⟨by decide, ?_, by decide⟩
  have hc : checkCreds wdbL "Ana" "wrong" = false := by decide
  simp [submit, hc]

/-- C6 (amended): whenever the current match is locked, no `POST /submit`
ever succeeds (hence no rating row is inserted); a request with valid
credentials and rating permission fails specifically with
`ratings_locked`, while earlier guards (credentials, permission) fire
their own errors first. -/
theorem c6_locked_round_readonly (db : DB) (name password : String) (entries : List Entry)
    (ts : Nat) (m : MatchRow)
    (hm : getCurrentMatch db = some m) (hlocked : m.locked = true) :
    (∀ db', submit db name password entries ts ≠ .ok db') ∧
    (checkCreds db name password = true →
     (db.players.find? (fun p => lowerEq p.name name)).map (·.can_rate) = some true →
     submit db name password entries ts = .error .ratings_locked) := by
  constructor
  · intro db' hok
    obtain ⟨m', _, _, hm', hl', _⟩ := submit_ok_inv db name password entries ts db' hok
    rw [hm] at hm'
    injection hm' with hmm
    rw [← hmm, hlocked] at hl'
    cases hl'
  · intro h1 h2
    simp [submit, h1, h2, hm, hlocked]

theorem c6_locked_round_readonly_witness :
    (∀ db', submit wdbL "Ana" "pa" [⟨"Bob", (7 : Rat)⟩] 5 ≠ .ok db') ∧
    (checkCreds wdbL "Ana" "pa" = true →
     (wdbL.players.find? (fun p => lowerEq p.name "Ana")).map (·.can_rate) = some true →
     submit wdbL "Ana" "pa" [⟨"Bob", (7 : Rat)⟩] 5 = .error .ratings_locked) :=
  c6_locked_round_readonly wdbL "Ana" "pa" [⟨"Bob", (7 : Rat)⟩] 5 ⟨1, true⟩ (by decide) rfl

/-- C8: `POST /submit` rejects with `invalid_score` when an otherwise valid
batch contains a score outside 1..10, and a successful submission stores
each entry's score rounded (`Math.round`) to an integer, so all stored
rating scores are integers in 1..10 (the `score` column is `INTEGER`). -/
theorem c8_scores_one_to_ten (db : DB) (name password : String) (entries : List Entry)
    (ts : Nat) :
    (∀ m, getCurrentMatch db = some m → m.locked = false →
      checkCreds db name password = true →
      (db.players.find? (fun p => lowerEq p.name name)).map (·.can_rate) = some true →
      db.ratings.any (fun r => r.match_id == m.id && r.rater == canonicalName db name) = false →
      (∀ e ∈ entries, e.ratee ∈ getEligibleRaters db ∧
        lowerEq e.ratee (canonicalName db name) = false) →
      (∃ e ∈ entries, e.score < 1 ∨ 10 < e.score) →
      submit db name password entries ts = .error .invalid_score) ∧
    (∀ db', submit db name password entries ts = .ok db' →
      (∃ m, getCurrentMatch db = some m ∧
        db'.ratings = db.ratings ++ insertedRows m.id (canonicalName db name) entries ts) ∧
      ((∀ r ∈ db.ratings, 1 ≤ r.score ∧ r.score ≤ 10) →
        ∀ r ∈ db'.ratings, 1 ≤ r.score ∧ r.score ≤ 10)) := by
  constructor
  · intro m hm hl h1 h2 hdup hratee hbad
    have hval := firstEntryError_invalid_score (getEligibleRaters db)
      (canonicalName db name) entries hratee hbad
    have hne : ¬ entries.isEmpty = true := by
      obtain ⟨e, he, _⟩ := hbad
      cases entries with
      | nil => cases he
      | cons a es => simp
    simp [submit, h1, h2, hm, hl, hdup, hne, hval]
  · intro db' hok
    obtain ⟨m, _, _, hm, _, _, _, hval, hshape⟩ :=
      submit_ok_inv db name password entries ts db' hok
    refine ⟨⟨m, hm, by rw [hshape]⟩, ?_⟩
    intro hold r hr
    rw [hshape] at hr
    simp only [List.mem_append] at hr
    rcases hr with hr | hr
    · exact hold r hr
    · simp only [insertedRows, List.mem_map] at hr
      obtain ⟨e, he, rfl⟩ := hr
      have hce := (firstEntryError_none_iff _ _ _).mp hval e he
      have hsc := (entryCheck_none_iff _ _ _).mp hce
      exact jsRound_bounds e.score hsc.2.2.1 hsc.2.2.2

theorem c8_scores_one_to_ten_witness :
    submit wdb "Ana" "pa" [⟨"Bob", (11 : Rat)⟩] 5 = .error .invalid_score ∧
    ((10 : Rat) < 11 ∨ (11 : Rat) < 1) :=
  ⟨(c8_scores_one_to_ten wdb "Ana" "pa" [⟨"Bob", (11 : Rat)⟩] 5).1 ⟨1, false⟩
      (by decide) rfl (by decide) (by decide) (by decide) (by decide)
      ⟨⟨"Bob", (11 : Rat)⟩, by decide, Or.inr (by decide)⟩,
    Or.inl (by decide)⟩

/-- C10: `POST /submit` rejects with `invalid_ratee` when an otherwise valid
batch contains an entry whose ratee is not an eligible player (exact-name
membership) or equals the rater case-insensitively; a successful
submission only stores entries with eligible ratees distinct from the
rater, so no stored rating ever has rater equal to ratee. -/
theorem c10_ratee_validation (db : DB) (name password : String) (entries : List Entry)
    (ts : Nat) :
    (∀ m, getCurrentMatch db = some m → m.locked = false →
      checkCreds db name password = true →
      (db.players.find? (fun p => lowerEq p.name name)).map (·.can_rate) = some true →
      db.ratings.any (fun r => r.match_id == m.id && r.rater == canonicalName db name) = false →
      (∀ e ∈ entries, 1 ≤ e.score ∧ e.score ≤ 10) →
      (∃ e ∈ entries, e.ratee ∉ getEligibleRaters db ∨
        lowerEq e.ratee (canonicalName db name) = true) →
      submit db name password entries ts = .error .invalid_ratee) ∧
    (∀ db', submit db name password entries ts = .ok db' →
      (∀ e ∈ entries, e.ratee ∈ getEligibleRaters db ∧
        lowerEq e.ratee (canonicalName db name) = false) ∧
      ((∀ r ∈ db.ratings, r.rater ≠ r.ratee) →
        ∀ r ∈ db'.ratings, r.rater ≠ r.ratee)) := by
  constructor
  · intro m hm hl h1 h2 hdup hscore hbad
    have hval := firstEntryError_invalid_ratee (getEligibleRaters db)
      (canonicalName db name) entries hscore hbad
    have hne : ¬ entries.isEmpty = true := by
      obtain ⟨e, he, _⟩ := hbad
      cases entries with
      | nil => cases he
      | cons a es => simp
    simp [submit, h1, h2, hm, hl, hdup, hne, hval]
  · intro db' hok
    obtain ⟨m, _, _, hm, _, _, _, hval, hshape⟩ :=
      submit_ok_inv db name password entries ts db' hok
    have hall : ∀ e ∈ entries, e.ratee ∈ getEligibleRaters db ∧
        lowerEq e.ratee (canonicalName db name) = false := by
      intro e he
      have hce := (firstEntryError_none_iff _ _ _).mp hval e he
      have hsc := (entryCheck_none_iff _ _ _).mp hce
      exact ⟨hsc.1, hsc.2.1⟩
    refine ⟨hall, ?_⟩
    intro hold r hr
    rw [hshape] at hr
    simp only [List.mem_append] at hr
    rcases hr with hr | hr
    · exact hold r hr
    · simp only [insertedRows, List.mem_map] at hr
      obtain ⟨e, he, rfl⟩ := hr
      exact fun heq => ne_of_lowerEq_false (hall e he).2 heq.symm

/-- C2 counterexample: a state reached by unlock, two submissions, and a
permission revocation, in which the distinct-rater count (2) differs from
the eligible count (1) yet the leaderboard is exposed as ready — the code
tests `raters >= total`, not equality. -/
theorem c2_counterexample :
    isOkB (adminLock c2db0 "Bader" "pw" false) = true ∧
    isOkB (submit c2db1 "Bader" "pw" [⟨"Marc", (7 : Rat)⟩] 10) = true ∧
    isOkB (submit c2db2 "Marc" "mp" [⟨"Bader", (6 : Rat)⟩] 11) = true ∧
    isOkB (togglePlayerPermission c2db3 "Bader" "pw" "Marc" false) = true ∧
    getCurrentMatch c2db4 = some ⟨1, false⟩ ∧
    (getTotalsForMatch c2db4 1).2 = 2 ∧
    (getTotalsForMatch c2db4 1).1 = 1 ∧
    leaderboardReady c2db4 = some true := by decide

/-- C2 (amended): the current round's leaderboard is exposed as ready
exactly when the distinct-rater count is at least the eligible count and
the eligible count is positive (`raters >= total && total > 0`); with
equality replaced by this inequality the readiness condition holds in
every state. -/
theorem c2_ready_iff (db : DB) (m : MatchRow) (hm : getCurrentMatch db = some m) :
    leaderboardReady db = some true ↔
      ((getTotalsForMatch db m.id).1 ≤ (getTotalsForMatch db m.id).2 ∧
        0 < (getTotalsForMatch db m.id).1) := by
  simp [leaderboardReady, hm]

theorem c2_ready_iff_witness :
    leaderboardReady c2db4 = some true ↔
      ((getTotalsForMatch c2db4 (MatchRow.mk 1 false).id).1
          ≤ (getTotalsForMatch c2db4 (MatchRow.mk 1 false).id).2 ∧
        0 < (getTotalsForMatch c2db4 (MatchRow.mk 1 false).id).1) :=
  c2_ready_iff c2db4 ⟨1, false⟩ (by decide)

/-- C5 counterexample: `Marc` is not the hardcoded admin, yet with his own
valid credentials both the lock route and the reset route succeed and
change the state — the claim that every admin route succeeds only for the
hardcoded admin fails on the code. -/
theorem c5_counterexample :
    lowerEq "Marc" "bader" = false ∧
    adminLock c5db "Marc" "mp" true
      = .ok { c5db with
              matches_ := [⟨1, true⟩],
              players := [⟨"Bader", "bp", false⟩, ⟨"Marc", "mp", false⟩] } ∧
    reset c5db "Marc" "mp"
      = .ok { c5db with matches_ := [⟨1, true⟩, ⟨2, true⟩] } := by decide

/-- C5 (amended): only the player-permission route requires the hardcoded
admin username `"bader"` (case-insensitively) on top of credential
verification; the add/remove/lock/reset routes require only valid
credentials of some existing player.  Requests failing the respective
check are rejected with `admin_only` (and, the error carrying no state,
leave the state unchanged); the lock route succeeds for any player with
valid credentials whenever a current match exists. -/
theorem c5_admin_gating :
    (∀ db a ap nm cr,
      (∀ db', togglePlayerPermission db a ap nm cr = .ok db' →
        lowerEq a "bader" = true ∧ checkCreds db a ap = true) ∧
      ((lowerEq a "bader" && checkCreds db a ap) = false →
        togglePlayerPermission db a ap nm cr = .error .admin_only)) ∧
    (∀ db n p, checkCreds db n p = false →
      (∀ nm pw, addPlayer db n p nm pw = .error .admin_only) ∧
      (∀ nm, removePlayer db n p nm = .error .admin_only) ∧
      (∀ lk, adminLock db n p lk = .error .admin_only) ∧
      reset db n p = .error .admin_only) ∧
    (∀ db n p lk m, checkCreds db n p = true → getCurrentMatch db = some m →
      isOkB (adminLock db n p lk) = true) := by
  refine ⟨?_, ?_, ?_⟩
  · intro db a ap nm cr
    constructor
    · intro db' hok
      by_cases hg : (lowerEq a "bader" && checkCreds db a ap) = true
      · simpa using hg
      · simp [togglePlayerPermission, hg] at hok
    · intro hg
      simp [togglePlayerPermission, hg]
  · intro db n p hc
    exact ⟨fun nm pw => by simp [addPlayer, hc],
           fun nm => by simp [removePlayer, hc],
           fun lk => by simp [adminLock, hc],
           by simp [reset, hc]⟩
  · intro db n p lk m hc hm
    simp [isOkB, adminLock, hc, hm]

theorem c5_admin_gating_witness :
    reset c5db "nobody" "x" = .error .admin_only ∧
    checkCreds c5db "nobody" "x" = false :=
  ⟨(c5_admin_gating.2.1 c5db "nobody" "x" (by decide)).2.2.2, by decide⟩

/-- C7: for every player, `GET /leaderboard/overall` reports the arithmetic
mean of the scores of the ratings addressed to that player in locked
matches (0 when there are none) together with their count, and a rating
whose match is unlocked contributes nothing to the overall row. -/
theorem c7_overall_locked_only (db : DB) (p : String) (r : Rating)
    (hunlocked : ∀ mm ∈ db.matches_, mm.id = r.match_id → mm.locked = false) :
    overallRow db p = (specMean (overallScores db p), (overallScores db p).length) ∧
    overallRow { db with ratings := r :: db.ratings } p = overallRow db p := by
  constructor
  · simp [overallRow, specMean]
  · have hnot : r.match_id ∉ lockedMatchIds db := by
      simp only [lockedMatchIds, List.mem_map, List.mem_filter]
      rintro ⟨mm, ⟨hmem, hl⟩, hid⟩
      rw [hunlocked mm hmem hid] at hl
      cases hl
    have hcont : (lockedMatchIds db).contains r.match_id = false := by
      rw [← Bool.not_eq_true, List.elem_iff]
      exact hnot
    have hscores : overallScores { db with ratings := r :: db.ratings } p
        = overallScores db p := by
      simp only [overallScores, List.filter_cons]
      have hids : lockedMatchIds { db with ratings := r :: db.ratings }
          = lockedMatchIds db := rfl
      rw [hids, hcont]
      simp
    simp only [overallRow, hscores]

theorem c7_overall_locked_only_witness :
    (overallRow wdb "Bob"
        = (specMean (overallScores wdb "Bob"), (overallScores wdb "Bob").length) ∧
      overallRow { wdb with ratings := Rating.mk 1 "Ana" "Bob" 5 0 :: wdb.ratings } "Bob"
        = overallRow wdb "Bob") ∧
    (∀ mm ∈ wdb.matches_, mm.id = (Rating.mk 1 "Ana" "Bob" 5 0).match_id →
      mm.locked = false) :=
  ⟨c7_overall_locked_only wdb "Bob" (Rating.mk 1 "Ana" "Bob" 5 0) (by decide),
   by decide⟩

theorem find?_map_pres {α : Type} (l : List α) (f : α → α) (p : α → Bool)
    (hp : ∀ x, p (f x) = p x) : (l.map f).find? p = (l.find? p).map f := by
  rw [List.find?_map]
  have h : p ∘ f = p := funext hp
  rw [h]

theorem filter_map_pres {α : Type} (l : List α) (f : α → α) (p : α → Bool)
    (hp : ∀ x, p (f x) = p x) : (l.map f).filter p = (l.filter p).map f := by
  rw [List.filter_map]
  have h : p ∘ f = p := funext hp
  rw [h]

/-- Under the `(comment_id, voter)` primary key, the rows matching a key are
exactly the one found row. -/
theorem votes_filter_single (rows : List CommentVote) (voter : String) (cid : Nat)
    (prior : CommentVote)
    (hpw : rows.Pairwise (fun a b => ¬(a.comment_id = b.comment_id ∧ a.voter = b.voter)))
    (hfind : rows.find? (fun v => v.comment_id == cid && v.voter == voter) = some prior) :
    rows.filter (fun v => v.comment_id == cid && v.voter == voter) = [prior] := by
  induction rows with
  | nil => simp at hfind
  | cons r rs ih =>
    cases hr : (r.comment_id == cid && r.voter == voter) with
    | true =>
      rw [List.find?_cons] at hfind
      rw [List.filter_cons]
      simp only [hr] at hfind ⊢
      injection hfind with hpr
      subst hpr
      have hrest : rs.filter (fun v => v.comment_id == cid && v.voter == voter) = [] := by
        rw [List.filter_eq_nil_iff]
        intro x hx hmatch
        have hr' := hr
        simp only [Bool.and_eq_true, beq_iff_eq] at hr' hmatch
        exact (List.pairwise_cons.mp hpw).1 x hx
          ⟨hr'.1.trans hmatch.1.symm, hr'.2.trans hmatch.2.symm⟩
      simp [hrest]
    | false =>
      rw [List.find?_cons] at hfind
      rw [List.filter_cons]
      simp only [hr] at hfind ⊢
      exact ih (List.pairwise_cons.mp hpw).2 hfind

theorem pairwise_keys_map (votes : List CommentVote) (f : CommentVote → CommentVote)
    (hf : ∀ v, (f v).comment_id = v.comment_id ∧ (f v).voter = v.voter)
    (h : votes.Pairwise (fun a b => ¬(a.comment_id = b.comment_id ∧ a.voter = b.voter))) :
    (votes.map f).Pairwise (fun a b => ¬(a.comment_id = b.comment_id ∧ a.voter = b.voter)) := by
  rw [List.pairwise_map]
  refine h.imp ?_
  intro a b hab
  rw [(hf a).1, (hf a).2, (hf b).1, (hf b).2]
  exact hab

/-- The `server/server.js` vote route with value 1 or -1 is an upsert: after
it, the voter's stored vote on the comment is exactly the submitted value —
whether or not a prior vote (even an identical one) existed. -/
theorem voteHandler_upsert (db : DB) (name password : String) (cid : Nat) (value : Int)
    (ts : Nat)
    (h1 : checkCreds db name password = true)
    (h3 : db.comments.any (fun c => c.id == cid) = true)
    (hval : value = 1 ∨ value = -1)
    (hinv : VotesInv db.comment_votes) :
    ∃ db', voteHandler db name password cid value ts = .ok db' ∧
      votesOf db' (canonicalName db name) cid = [⟨cid, canonicalName db name, value, ts⟩] := by
  have h0 : ¬ value = 0 := by rcases hval with h | h <;> (subst h; decide)
  have hvb : (value == 1 || value == -1) = true := by
    rcases hval with h | h <;> simp [h]
  cases hfind : db.comment_votes.find?
      (fun v => v.comment_id == cid && v.voter == canonicalName db name) with
  | some prior =>
    have hany : db.comment_votes.any
        (fun v => v.comment_id == cid && v.voter == canonicalName db name) = true := by
      rw [List.any_eq_true]
      have hps := List.find?_some hfind
      exact ⟨prior, List.mem_of_find?_eq_some hfind, hps⟩
    refine ⟨{ db with
        comment_votes := db.comment_votes.map
          (fun v => if v.comment_id == cid && v.voter == canonicalName db name then
            { v with value := value, ts := ts } else v) }, ?_, ?_⟩
    · simp [voteHandler, h1, h0, hvb, h3, hany]
    · have hpres : ∀ v : CommentVote,
          (fun w : CommentVote => w.comment_id == cid && w.voter == canonicalName db name)
            (if v.comment_id == cid && v.voter == canonicalName db name then
              { v with value := value, ts := ts } else v)
          = (fun w : CommentVote => w.comment_id == cid && w.voter == canonicalName db name)
              v := by
        intro v
        split <;> rfl
      have hp := List.find?_some hfind
      simp only [votesOf]
      rw [filter_map_pres _ _ _ hpres, votes_filter_single _ _ _ _ hinv.1 hfind]
      have hp' := hp
      simp only [Bool.and_eq_true, beq_iff_eq] at hp'
      simp [hp, hp'.1, hp'.2]
  | none =>
    have hany : db.comment_votes.any
        (fun v => v.comment_id == cid && v.voter == canonicalName db name) = false := by
      rw [Bool.eq_false_iff]
      intro hc
      rw [List.any_eq_true] at hc
      obtain ⟨v, hv, hpv⟩ := hc
      exact List.find?_eq_none.mp hfind v hv hpv
    refine ⟨{ db with
        comment_votes := db.comment_votes ++ [⟨cid, canonicalName db name, value, ts⟩] },
      ?_, ?_⟩
    · simp [voteHandler, h1, h0, hvb, h3, hany]
    · simp only [votesOf]
      rw [List.filter_append]
      have hnil : db.comment_votes.filter
          (fun v => v.comment_id == cid && v.voter == canonicalName db name) = [] :=
        List.filter_eq_nil_iff.mpr (List.find?_eq_none.mp hfind)
      rw [hnil]
      simp

/-- The `server/server.js` vote route with value 0 deletes the voter's vote. -/
theorem voteHandler_delete (db : DB) (name password : String) (cid : Nat) (ts : Nat)
    (h1 : checkCreds db name password = true) :
    ∃ db', voteHandler db name password cid 0 ts = .ok db' ∧
      votesOf db' (canonicalName db name) cid = [] := by
  refine ⟨{ db with
      comment_votes := db.comment_votes.filter
        (fun v => !(v.comment_id == cid && v.voter == canonicalName db name)) }, ?_, ?_⟩
  · simp [voteHandler, h1]
  · simp only [votesOf]
    rw [List.filter_eq_nil_iff]
    intro v hv hkey
    have h2 := (List.mem_filter.mp hv).2
    rw [hkey] at h2
    cases h2

theorem voteHandler_preserves_inv (db : DB) (name password : String) (cid : Nat)
    (value : Int) (ts : Nat) (db' : DB)
    (hok : voteHandler db name password cid value ts = .ok db')
    (hinv : VotesInv db.comment_votes) : VotesInv db'.comment_votes := by
  by_cases h1 : checkCreds db name password
  case neg => simp [voteHandler, h1] at hok
  case pos =>
  by_cases h0 : value = 0
  · -- delete branch
    simp [voteHandler, h1, h0] at hok
    subst hok
    refine ⟨hinv.1.sublist (List.filter_sublist _), ?_⟩
    intro v hv
    exact hinv.2 v (List.mem_of_mem_filter hv)
  · by_cases hpm : value = 1 ∨ value = -1
    case neg =>
      have hvb : ¬((value == 1 || value == -1) = true) := by
        simpa using hpm
      simp [voteHandler, h1, h0, hvb] at hok
    case pos =>
    have hvb : (value == 1 || value == -1) = true := by
      rcases hpm with h | h <;> simp [h]
    by_cases hcm : db.comments.any (fun c => c.id == cid)
    case neg => simp [voteHandler, h1, h0, hvb, hcm] at hok
    case pos =>
    by_cases hprior : db.comment_votes.any
        (fun v => v.comment_id == cid && v.voter == canonicalName db name)
    · -- upsert via update
      simp [voteHandler, h1, h0, hvb, hcm, hprior] at hok
      subst hok
      constructor
      · refine pairwise_keys_map _ _ ?_ hinv.1
        intro v
        constructor <;> (split <;> simp)
      · intro v hv
        simp only [List.mem_map] at hv
        obtain ⟨w, hw, rfl⟩ := hv
        split
        · rcases hpm with h | h <;> simp [h]
        · exact hinv.2 w hw
    · -- insert branch
      simp [voteHandler, h1, h0, hvb, hcm, hprior] at hok
      subst hok
      have hnone : ∀ v ∈ db.comment_votes,
          ¬(v.comment_id = cid ∧ v.voter = canonicalName db name) := by
        intro v hv hcontra
        have : db.comment_votes.any
            (fun v => v.comment_id == cid && v.voter == canonicalName db name) = true := by
          rw [List.any_eq_true]
          exact ⟨v, hv, by simp [hcontra.1, hcontra.2]⟩
        exact hprior this
      constructor
      · rw [List.pairwise_append]
        refine ⟨hinv.1, by simp, ?_⟩
        intro a ha b hb
        simp only [List.mem_singleton] at hb
        subst hb
        exact hnone a ha
      · intro v hv
        rcases List.mem_append.mp hv with hv | hv
        · exact hinv.2 v hv
        · simp only [List.mem_singleton] at hv
          subst hv
          exact hpm

end VB

namespace P1

theorem pairwise_voter_keys_map (rows : List VoterRow) (f : VoterRow → VoterRow)
    (hf : ∀ v, (f v).voter = v.voter ∧ (f v).comment_id = v.comment_id)
    (h : rows.Pairwise (fun a b => ¬(a.voter = b.voter ∧ a.comment_id = b.comment_id))) :
    (rows.map f).Pairwise (fun a b => ¬(a.voter = b.voter ∧ a.comment_id = b.comment_id)) := by
  rw [List.pairwise_map]
  refine h.imp ?_
  intro a b hab
  rw [(hf a).1, (hf a).2, (hf b).1, (hf b).2]
  exact hab

/-- Under the uniqueness constraint, the rows matching a `(voter, comment)`
key are exactly the one found row. -/
theorem voter_rows_filter_single (rows : List VoterRow) (voter : String) (cid : Nat)
    (prior : VoterRow)
    (hpw : rows.Pairwise (fun a b => ¬(a.voter = b.voter ∧ a.comment_id = b.comment_id)))
    (hfind : rows.find? (fun v => v.voter == voter && v.comment_id == cid) = some prior) :
    rows.filter (fun v => v.voter == voter && v.comment_id == cid) = [prior] := by
  induction rows with
  | nil => simp at hfind
  | cons r rs ih =>
    cases hr : (r.voter == voter && r.comment_id == cid) with
    | true =>
      rw [List.find?_cons] at hfind
      rw [List.filter_cons]
      simp only [hr] at hfind ⊢
      injection hfind with hpr
      subst hpr
      have hrest : rs.filter (fun v => v.voter == voter && v.comment_id == cid) = [] := by
        rw [List.filter_eq_nil_iff]
        intro x hx hmatch
        have hr' := hr
        simp only [Bool.and_eq_true, beq_iff_eq] at hr' hmatch
        exact (List.pairwise_cons.mp hpw).1 x hx
          ⟨hr'.1.trans hmatch.1.symm, hr'.2.trans hmatch.2.symm⟩
      simp [hrest]
    | false =>
      rw [List.find?_cons] at hfind
      rw [List.filter_cons]
      simp only [hr] at hfind ⊢
      exact ih (List.pairwise_cons.mp hpw).2 hfind

theorem vote_preserves_inv (db : DB) (name password : String) (cid : Nat) (ty0 : String)
    (db' : DB) (hok : vote db name password cid ty0 = .ok db')
    (hinv : VotersInv db.comment_voters) : VotersInv db'.comment_voters := by
  by_cases h1 : VB.checkCredsL db.players name password
  case neg => simp [vote, h1] at hok
  case pos =>
  by_cases h2 : (VB.lowerStr ty0 == "like" || VB.lowerStr ty0 == "dislike"
      || VB.lowerStr ty0 == "clear") = true
  case neg => simp [vote, h1, h2] at hok
  case pos =>
  by_cases h3 : db.comments.any (fun c => c.id == cid)
  case neg => simp [vote, h1, h2, h3] at hok
  case pos =>
  cases hfind : db.comment_voters.find?
      (fun v => v.voter == VB.canonicalNameL db.players name && v.comment_id == cid) with
  | none =>
    by_cases h4 : (VB.lowerStr ty0 == "clear") = true
    · simp [vote, h1, h2, h3, hfind, h4] at hok
      rw [← hok]
      exact hinv
    · have hld : VB.lowerStr ty0 = "like" ∨ VB.lowerStr ty0 = "dislike" := by
        have h2' := h2
        simp only [Bool.or_eq_true, beq_iff_eq] at h2'
        rcases h2' with (h | h) | h
        · exact Or.inl h
        · exact Or.inr h
        · exact absurd (by simp [h]) h4
      rcases hld with hty | hty <;>
      · simp [vote, h1, h2, h3, hfind, h4, hty] at hok
        subst hok
        refine ⟨?_, ?_⟩
        · rw [List.pairwise_append]
          refine ⟨hinv.1, by simp, ?_⟩
          intro a ha b hb
          simp only [List.mem_singleton] at hb
          subst hb
          have hnone := List.find?_eq_none.mp hfind a ha
          simp only [Bool.and_eq_true, beq_iff_eq, not_and] at hnone
          intro hcontra
          exact hnone hcontra.1 hcontra.2
        · intro v hv
          rcases List.mem_append.mp hv with hv | hv
          · exact hinv.2 v hv
          · simp only [List.mem_singleton] at hv
            subst hv
            first
            | exact Or.inl rfl
            | exact Or.inr rfl
  | some prior =>
    by_cases hcond : (VB.lowerStr ty0 == prior.vote_type) = true
    · simp [vote, h1, h2, h3, hfind, hcond] at hok
      subst hok
      exact ⟨hinv.1.sublist (List.filter_sublist _),
        fun v hv => hinv.2 v (List.mem_of_mem_filter hv)⟩
    · by_cases h4 : (VB.lowerStr ty0 == "clear") = true
      · simp [vote, h1, h2, h3, hfind, hcond, h4] at hok
        subst hok
        exact ⟨hinv.1.sublist (List.filter_sublist _),
          fun v hv => hinv.2 v (List.mem_of_mem_filter hv)⟩
      · have hld : VB.lowerStr ty0 = "like" ∨ VB.lowerStr ty0 = "dislike" := by
          have h2' := h2
          simp only [Bool.or_eq_true, beq_iff_eq] at h2'
          rcases h2' with (h | h) | h
          · exact Or.inl h
          · exact Or.inr h
          · exact absurd (by simp [h]) h4
        rcases hld with hty | hty <;>
        · rw [hty] at hcond
          simp only [beq_iff_eq] at hcond
          simp [vote, h1, h2, h3, hfind, hcond, hty] at hok
          subst hok
          refine ⟨pairwise_voter_keys_map _ _ ?_ hinv.1, ?_⟩
          · intro v
            constructor <;> (split <;> simp)
          · intro v hv
            simp only [List.mem_map] at hv
            obtain ⟨w, hw, rfl⟩ := hv
            split
            · first
              | exact Or.inl rfl
              | exact Or.inr rfl
            · exact hinv.2 w hw

/-- Toggle-off in the earlier revision: sending the reaction already stored
clears the vote and decrements its counter. -/
theorem vote_clear (db : DB) (name password : String) (cid : Nat) (ty0 : String)
    (prior : VoterRow)
    (h1 : VB.checkCredsL db.players name password = true)
    (h3 : db.comments.any (fun c => c.id == cid) = true)
    (hinv : VotersInv db.comment_voters)
    (h2 : (VB.lowerStr ty0 == "like" || VB.lowerStr ty0 == "dislike"
        || VB.lowerStr ty0 == "clear") = true)
    (hfind : db.comment_voters.find? (fun v =>
      v.voter == VB.canonicalNameL db.players name && v.comment_id == cid) = some prior)
    (hsame : VB.lowerStr ty0 = prior.vote_type) :
    ∃ db', vote db name password cid ty0 = .ok db' ∧
      votesOf db' (VB.canonicalNameL db.players name) cid = [] ∧
      ∀ c, commentById db cid = some c →
        commentById db' cid = some (if prior.vote_type == "like"
          then { c with likes := c.likes - 1 } else { c with dislikes := c.dislikes - 1 }) := by
  have hcond : (VB.lowerStr ty0 == prior.vote_type) = true := by simp [hsame]
  refine ⟨{ db with
      comment_voters := db.comment_voters.filter (fun v => !(v.id == prior.id)),
      comments := db.comments.map (fun c =>
        if c.id == cid then
          if prior.vote_type == "like" then { c with likes := c.likes - 1 }
          else { c with dislikes := c.dislikes - 1 }
        else c) }, ?_, ?_, ?_⟩
  · simp [vote, h1, h2, h3, hfind, hcond]
  · simp only [votesOf]
    rw [List.filter_eq_nil_iff]
    intro v hv hkey
    have hvmem := List.mem_of_mem_filter hv
    have hvid := (List.mem_filter.mp hv).2
    have hvs : v ∈ db.comment_voters.filter (fun v =>
        v.voter == VB.canonicalNameL db.players name && v.comment_id == cid) :=
      List.mem_filter.mpr ⟨hvmem, hkey⟩
    rw [voter_rows_filter_single _ _ _ _ hinv.1 hfind] at hvs
    simp only [List.mem_singleton] at hvs
    subst hvs
    simp at hvid
  · intro c hc
    have hg : ∀ x : CommentRow,
        (fun w : CommentRow => w.id == cid)
          ((fun c => if c.id == cid then
            if prior.vote_type == "like" then { c with likes := c.likes - 1 }
            else { c with dislikes := c.dislikes - 1 }
          else c) x)
        = (fun w : CommentRow => w.id == cid) x := by
      intro x
      by_cases hx : (x.id == cid) = true <;> simp [hx, apply_ite]
    simp only [commentById] at hc ⊢
    rw [VB.find?_map_pres _ _ _ hg, hc]
    have hcc := List.find?_some hc
    simp [hcc]
    intro hne
    exact absurd (by simpa using hcc) hne

/-- Switch in the earlier revision: sending the opposite reaction replaces
the stored vote and moves one count from the old counter to the new. -/
theorem vote_switch (db : DB) (name password : String) (cid : Nat) (ty0 : String)
    (prior : VoterRow)
    (h1 : VB.checkCredsL db.players name password = true)
    (h3 : db.comments.any (fun c => c.id == cid) = true)
    (hinv : VotersInv db.comment_voters)
    (hfind : db.comment_voters.find? (fun v =>
      v.voter == VB.canonicalNameL db.players name && v.comment_id == cid) = some prior)
    (hdiff : VB.lowerStr ty0 ≠ prior.vote_type)
    (hld : VB.lowerStr ty0 = "like" ∨ VB.lowerStr ty0 = "dislike") :
    ∃ db', vote db name password cid ty0 = .ok db' ∧
      votesOf db' (VB.canonicalNameL db.players name) cid
        = [{ prior with vote_type := VB.lowerStr ty0 }] ∧
      ∀ c, commentById db cid = some c →
        commentById db' cid = some (if VB.lowerStr ty0 == "like"
          then { c with likes := c.likes + 1, dislikes := c.dislikes - 1 }
          else { c with dislikes := c.dislikes + 1, likes := c.likes - 1 }) := by
  have h2 : (VB.lowerStr ty0 == "like" || VB.lowerStr ty0 == "dislike"
      || VB.lowerStr ty0 == "clear") = true := by
    rcases hld with h | h <;> simp [h]
  have hcond : (VB.lowerStr ty0 == prior.vote_type) = false := by
    rw [beq_eq_false_iff_ne]
    exact hdiff
  have hnc : (VB.lowerStr ty0 == "clear") = false := by
    rcases hld with h | h <;> simp [h]
  refine ⟨{ db with
      comment_voters := db.comment_voters.map
        (fun v => if v.id == prior.id then { v with vote_type := VB.lowerStr ty0 } else v),
      comments := db.comments.map (fun c =>
        if c.id == cid then
          if VB.lowerStr ty0 == "like"
            then { c with likes := c.likes + 1, dislikes := c.dislikes - 1 }
            else { c with dislikes := c.dislikes + 1, likes := c.likes - 1 }
        else c) }, ?_, ?_, ?_⟩
  · simp [vote, h1, h2, h3, hfind, hcond, hnc]
    exact fun h => hld.resolve_left h
  · have hpres : ∀ v : VoterRow,
        (fun w : VoterRow => w.voter == VB.canonicalNameL db.players name
          && w.comment_id == cid)
          ((fun v => if v.id == prior.id then { v with vote_type := VB.lowerStr ty0 } else v) v)
        = (fun w : VoterRow => w.voter == VB.canonicalNameL db.players name
            && w.comment_id == cid) v := by
      intro v
      by_cases hx : (v.id == prior.id) = true <;> simp [hx]
    simp only [votesOf]
    rw [VB.filter_map_pres _ _ _ hpres, voter_rows_filter_single _ _ _ _ hinv.1 hfind]
    simp
  · intro c hc
    have hg : ∀ x : CommentRow,
        (fun w : CommentRow => w.id == cid)
          ((fun c => if c.id == cid then
            if VB.lowerStr ty0 == "like"
              then { c with likes := c.likes + 1, dislikes := c.dislikes - 1 }
              else { c with dislikes := c.dislikes + 1, likes := c.likes - 1 }
          else c) x)
        = (fun w : CommentRow => w.id == cid) x := by
      intro x
      by_cases hx : (x.id == cid) = true <;> simp [hx, apply_ite]
    simp only [commentById] at hc ⊢
    rw [VB.find?_map_pres _ _ _ hg, hc]
    have hcc := List.find?_some hc
    simp [hcc]
    intro hne
    exact absurd (by simpa using hcc) hne

/-- Insert in the earlier revision: a first reaction stores the vote and
increments its counter. -/
theorem vote_insert (db : DB) (name password : String) (cid : Nat) (ty0 : String)
    (h1 : VB.checkCredsL db.players name password = true)
    (h3 : db.comments.any (fun c => c.id == cid) = true)
    (hfind : db.comment_voters.find? (fun v =>
      v.voter == VB.canonicalNameL db.players name && v.comment_id == cid) = none)
    (hld : VB.lowerStr ty0 = "like" ∨ VB.lowerStr ty0 = "dislike") :
    ∃ db', vote db name password cid ty0 = .ok db' ∧
      votesOf db' (VB.canonicalNameL db.players name) cid
        = [⟨db.nextVoterId, VB.canonicalNameL db.players name, VB.lowerStr ty0, cid⟩] ∧
      ∀ c, commentById db cid = some c →
        commentById db' cid = some (if VB.lowerStr ty0 == "like"
          then { c with likes := c.likes + 1 } else { c with dislikes := c.dislikes + 1 }) := by
  have h2 : (VB.lowerStr ty0 == "like" || VB.lowerStr ty0 == "dislike"
      || VB.lowerStr ty0 == "clear") = true := by
    rcases hld with h | h <;> simp [h]
  have hnc : (VB.lowerStr ty0 == "clear") = false := by
    rcases hld with h | h <;> simp [h]
  refine ⟨{ db with
      comment_voters := db.comment_voters
        ++ [⟨db.nextVoterId, VB.canonicalNameL db.players name, VB.lowerStr ty0, cid⟩],
      nextVoterId := db.nextVoterId + 1,
      comments := db.comments.map (fun c =>
        if c.id == cid then
          if VB.lowerStr ty0 == "like"
            then { c with likes := c.likes + 1 } else { c with dislikes := c.dislikes + 1 }
        else c) }, ?_, ?_, ?_⟩
  · simp [vote, h1, h2, h3, hfind, hnc]
    exact fun h => hld.resolve_left h
  · simp only [votesOf]
    rw [List.filter_append]
    have hnil : db.comment_voters.filter (fun v =>
        v.voter == VB.canonicalNameL db.players name && v.comment_id == cid) = [] :=
      List.filter_eq_nil_iff.mpr (List.find?_eq_none.mp hfind)
    rw [hnil]
    simp
  · intro c hc
    have hg : ∀ x : CommentRow,
        (fun w : CommentRow => w.id == cid)
          ((fun c => if c.id == cid then
            if VB.lowerStr ty0 == "like"
              then { c with likes := c.likes + 1 } else { c with dislikes := c.dislikes + 1 }
          else c) x)
        = (fun w : CommentRow => w.id == cid) x := by
      intro x
      by_cases hx : (x.id == cid) = true <;> simp [hx, apply_ite]
    simp only [commentById] at hc ⊢
    rw [VB.find?_map_pres _ _ _ hg, hc]
    have hcc := List.find?_some hc
    simp [hcc]
    intro hne
    exact absurd (by simpa using hcc) hne

end P1

namespace VB

theorem c10_ratee_validation_witness :
    submit wdb "Ana" "pa" [⟨"Ana", (7 : Rat)⟩] 5 = .error .invalid_ratee ∧
    lowerEq "Ana" (canonicalName wdb "Ana") = true :=
  ⟨(c10_ratee_validation wdb "Ana" "pa" [⟨"Ana", (7 : Rat)⟩] 5).1 ⟨1, false⟩
      (by decide) rfl (by decide) (by decide) (by decide) (by decide)
      ⟨⟨"Ana", (7 : Rat)⟩, by decide, Or.inr (by decide)⟩,
    by decide⟩

end VB

/-- C4: under the vote-table constraints — at most one stored vote row per
(voter, comment) pair, with value like/dislike (value ∈ -1, 1 in
`server/server.js`, `vote_type ∈ like, dislike` in the earlier
revision) — every successful vote operation (the value-0 delete and the
upsert of `server/server.js`; the insert, switch, and clear transitions of
the earlier revision) preserves the constraints. -/
theorem c4_vote_uniqueness_invariant :
    (∀ (db : VB.DB) (name password : String) (cid : Nat) (value : Int) (ts : Nat)
      (db' : VB.DB),
      VB.voteHandler db name password cid value ts = .ok db' →
      VB.VotesInv db.comment_votes → VB.VotesInv db'.comment_votes) ∧
    (∀ (db : P1.DB) (name password : String) (cid : Nat) (ty : String) (db' : P1.DB),
      P1.vote db name password cid ty = .ok db' →
      P1.VotersInv db.comment_voters → P1.VotersInv db'.comment_voters) :=
  ⟨fun db n p c v t db' => VB.voteHandler_preserves_inv db n p c v t db',
   fun db n p c ty db' => P1.vote_preserves_inv db n p c ty db'⟩

theorem c4_vote_uniqueness_invariant_witness :
    VB.VotesInv ({ vdb with comment_votes := [⟨1, "Bob", 1, 9⟩] } : VB.DB).comment_votes ∧
    P1.VotersInv ({ p1db with
        comments := [⟨1, "Ana", "gg", 1, 0⟩],
        comment_voters := [⟨1, "Bob", "like", 1⟩],
        nextVoterId := 2 } : P1.DB).comment_voters :=
  ⟨c4_vote_uniqueness_invariant.1 vdb "Bob" "pb" 1 1 9 _ (by decide)
      ⟨List.Pairwise.nil, by decide⟩,
   c4_vote_uniqueness_invariant.2 p1db "Bob" "pb" 1 "like" _ (by decide)
      ⟨List.Pairwise.nil, by decide⟩⟩

/-- C3 counterexample: in `server/server.js`, `Bob` already has a like
(value 1) stored on comment 1 and submits the same reaction (value 1); the
stored vote is not cleared — the route upserts the same value — refuting
the idempotent toggle-off leg of the claim for this route. -/
theorem c3_counterexample :
    VB.voteHandler c3db "Bob" "pb" 1 1 9
      = .ok { c3db with comment_votes := [⟨1, "Bob", 1, 9⟩] } ∧
    ({ c3db with comment_votes := [⟨1, "Bob", 1, 9⟩] } : VB.DB).comment_votes ≠ [] := by
  decide

/-- C3 (amended): the toggle contract holds as stated for the earlier
revision's `POST /comments/vote` — for an existing comment and a voter
with a stored vote, submitting the same reaction clears the vote and
decrements its counter, submitting the opposite one switches the vote
(decrementing the old counter, incrementing the new), and with no stored
vote a reaction is inserted and its counter incremented.  In
`server/server.js`'s `POST /comments/:id/vote` the stored vote after any
accepted value 1 / -1 request is exactly the submitted value (an upsert:
submitting the stored reaction again leaves the vote in place), and a
value 0 request clears the vote. -/
theorem c3_vote_toggle_contract :
    (∀ (db : P1.DB) (name password : String) (cid : Nat) (ty0 : String)
      (prior : P1.VoterRow),
      VB.checkCredsL db.players name password = true →
      db.comments.any (fun c => c.id == cid) = true →
      P1.VotersInv db.comment_voters →
      db.comment_voters.find? (fun v =>
        v.voter == VB.canonicalNameL db.players name && v.comment_id == cid) = some prior →
      ((VB.lowerStr ty0 == "like" || VB.lowerStr ty0 == "dislike"
          || VB.lowerStr ty0 == "clear") = true →
        VB.lowerStr ty0 = prior.vote_type →
        ∃ db', P1.vote db name password cid ty0 = .ok db' ∧
          P1.votesOf db' (VB.canonicalNameL db.players name) cid = [] ∧
          ∀ c, P1.commentById db cid = some c →
            P1.commentById db' cid = some (if prior.vote_type == "like"
              then { c with likes := c.likes - 1 }
              else { c with dislikes := c.dislikes - 1 })) ∧
      (VB.lowerStr ty0 ≠ prior.vote_type →
        (VB.lowerStr ty0 = "like" ∨ VB.lowerStr ty0 = "dislike") →
        ∃ db', P1.vote db name password cid ty0 = .ok db' ∧
          P1.votesOf db' (VB.canonicalNameL db.players name) cid
            = [{ prior with vote_type := VB.lowerStr ty0 }] ∧
          ∀ c, P1.commentById db cid = some c →
            P1.commentById db' cid = some (if VB.lowerStr ty0 == "like"
              then { c with likes := c.likes + 1, dislikes := c.dislikes - 1 }
              else { c with dislikes := c.dislikes + 1, likes := c.likes - 1 }))) ∧
    (∀ (db : P1.DB) (name password : String) (cid : Nat) (ty0 : String),
      VB.checkCredsL db.players name password = true →
      db.comments.any (fun c => c.id == cid) = true →
      db.comment_voters.find? (fun v =>
        v.voter == VB.canonicalNameL db.players name && v.comment_id == cid) = none →
      (VB.lowerStr ty0 = "like" ∨ VB.lowerStr ty0 = "dislike") →
      ∃ db', P1.vote db name password cid ty0 = .ok db' ∧
        P1.votesOf db' (VB.canonicalNameL db.players name) cid
          = [⟨db.nextVoterId, VB.canonicalNameL db.players name, VB.lowerStr ty0, cid⟩] ∧
        ∀ c, P1.commentById db cid = some c →
          P1.commentById db' cid = some (if VB.lowerStr ty0 == "like"
            then { c with likes := c.likes + 1 } else { c with dislikes := c.dislikes + 1 })) ∧
    (∀ (db : VB.DB) (name password : String) (cid : Nat) (value : Int) (ts : Nat),
      VB.checkCreds db name password = true →
      db.comments.any (fun c => c.id == cid) = true →
      (value = 1 ∨ value = -1) →
      VB.VotesInv db.comment_votes →
      ∃ db', VB.voteHandler db name password cid value ts = .ok db' ∧
        VB.votesOf db' (VB.canonicalName db name) cid
          = [⟨cid, VB.canonicalName db name, value, ts⟩]) ∧
    (∀ (db : VB.DB) (name password : String) (cid : Nat) (ts : Nat),
      VB.checkCreds db name password = true →
      ∃ db', VB.voteHandler db name password cid 0 ts = .ok db' ∧
        VB.votesOf db' (VB.canonicalName db name) cid = []) := by
  refine ⟨?_, ?_, ?_, ?_⟩
  · intro db n p cid ty0 prior h1 h3 hinv hfind
    exact ⟨fun h2 hsame => P1.vote_clear db n p cid ty0 prior h1 h3 hinv h2 hfind hsame,
           fun hdiff hld => P1.vote_switch db n p cid ty0 prior h1 h3 hinv hfind hdiff hld⟩
  · intro db n p cid ty0 h1 h3 hfind hld
    exact P1.vote_insert db n p cid ty0 h1 h3 hfind hld
  · intro db n p cid v ts h1 h3 hval hinv
    exact VB.voteHandler_upsert db n p cid v ts h1 h3 hval hinv
  · intro db n p cid ts h1
    exact VB.voteHandler_delete db n p cid ts h1

theorem c3_vote_toggle_contract_witness :
    ∃ db', P1.vote p1db "Bob" "pb" 1 "like" = .ok db' ∧
      P1.votesOf db' (VB.canonicalNameL p1db.players "Bob") 1
        = [⟨p1db.nextVoterId, VB.canonicalNameL p1db.players "Bob", VB.lowerStr "like", 1⟩] ∧
      ∀ c, P1.commentById p1db 1 = some c →
        P1.commentById db' 1 = some (if VB.lowerStr "like" == "like"
          then { c with likes := c.likes + 1 } else { c with dislikes := c.dislikes + 1 }) :=
  c3_vote_toggle_contract.2.1 p1db "Bob" "pb" 1 "like"
    (by decide) (by decide) (by decide) (Or.inl (by decide))
